import Mathlib

/-!
# Verification of the meta-rust plugin core (src/lib.rs)

Shallow embedding of the project-discovery and plan-construction logic of
the meta-rust plugin: `get_project_directories`, `filter_rust_projects`
and `execute_command` from `src/lib.rs`.

Modelling choices, each noted at the relevant definition:
* Paths are lists of components (`List String`); the filesystem is a
  decidable existence predicate over paths.  The process working directory
  (`std::env::current_dir()`) is threaded as an explicit `cwd` parameter
  and assumed to be obtainable (its exotic failure mode — the process cwd
  having been deleted — is not modelled).
* The `.meta` tree-configuration file is modelled by its observable state
  (`MetaFile`): absent, unreadable, unparsable, or parsed into a JSON value.
* `serde_json::Value` is modelled minimally (`JsonValue`): only objects are
  distinguished, since the code only inspects the keys of the `"projects"`
  object.  The map type of `serde_json` (default features) is a `BTreeMap`,
  whose key iteration is ascending lexicographic; `btreeKeys` models that
  iteration.
-/

namespace MetaRust

/-- A filesystem path, as a list of components relative to the filesystem
root. -/
abbrev Path := List String

/-- The filesystem state visible to the code: which paths exist. -/
structure FileSystem where
  pathExists : Path → Bool

/-- Minimal model of a parsed `serde_json::Value`.  Only the object shape
matters to `get_project_directories`; every other JSON shape is collapsed
into `other`.  In values actually produced by `serde_json`, each `object`
field list has pairwise-distinct keys (it is a `BTreeMap`). -/
inductive JsonValue where
  | object (fields : List (String × JsonValue))
  | other

/-- Key lookup in the field list of a JSON object (a `serde_json` map holds
each key at most once, so first-match lookup is exact on reachable values). -/
def jsonLookup : List (String × JsonValue) → String → Option JsonValue
  | [], _ => none
  | (k, v) :: rest, key => if k = key then some v else jsonLookup rest key

/-- The accessor `as_object` of `serde_json::Value`: the field list when
the value is an object. -/
def asObject : JsonValue → Option (List (String × JsonValue))
  | .object fields => some fields
  | .other => none

/-- Indexing as in `meta_config["projects"]`: the square-bracket indexing
of `serde_json` yields `Null` when the value is not an object or the key is
missing, and `as_object` on `Null` is `None`; both are collapsed into
`none` here. -/
def jsonIndex (j : JsonValue) (key : String) : Option JsonValue :=
  match j with
  | .object fields => jsonLookup fields key
  | .other => none

/-- Key iteration of a `serde_json` map (default features: a `BTreeMap`):
the distinct keys in ascending lexicographic order. -/
def btreeKeys (keys : List String) : List String :=
  List.insertionSort (· ≤ ·) keys.dedup

/-- The raw key list of the `"projects"` object of a parsed `.meta` value;
`[]` when `"projects"` is missing or not an object (the `if let` of
`get_project_directories` is then skipped). -/
def configKeys (j : JsonValue) : List String :=
  match (jsonIndex j "projects").bind asObject with
  | some fields => fields.map Prod.fst
  | none => []

/-- The project names that the loop `for name in projects.keys()` of
`get_project_directories` pushes, in `BTreeMap` iteration order
(`btreeKeys`). -/
def configProjects (j : JsonValue) : List String :=
  btreeKeys (configKeys j)

/-- The observable state of the `.meta` file at the workspace root, covering
each exit of the fallible section of `get_project_directories`:
`absent` — `meta_path.exists()` is false; `readError e` —
`std::fs::read_to_string` fails with error text `e`; `invalid e` — the file
is read but `serde_json::from_str` fails with error text `e`; `parsed j` —
the file parses to the value `j`. -/
inductive MetaFile where
  | absent
  | readError (e : String)
  | invalid (e : String)
  | parsed (j : JsonValue)

/-- Function `get_project_directories` from src/lib.rs: with a non-empty provided
project list the result is `"."` followed by that list verbatim (the
`.meta` file is not consulted); otherwise the `.meta` file drives the
result, read/parse failures propagating through `?` as errors. -/
def get_project_directories (provided_projects : List String)
    (metaFile : MetaFile) : Except String (List String) :=
  if !provided_projects.isEmpty then
    Except.ok ("." :: provided_projects)
  else
    match metaFile with
    | .absent => Except.ok ["."]
    | .readError e => Except.error e
    | .invalid e => Except.error e
    | .parsed j => Except.ok ("." :: configProjects j)

/-- The path whose existence `filter_rust_projects` tests for directory
`dir`: `cwd/Cargo.toml` for the root sentinel `"."`, else
`cwd/dir/Cargo.toml`. -/
def cargoPath (cwd : Path) (dir : String) : Path :=
  if dir = "." then cwd ++ ["Cargo.toml"] else cwd ++ [dir, "Cargo.toml"]

/-- Function `filter_rust_projects` from src/lib.rs: keep the directories whose
`Cargo.toml` exists.  The call `current_dir().unwrap_or_default()` of the
source is the explicit `cwd` parameter (any value, including the empty
path). -/
def filter_rust_projects (fs : FileSystem) (cwd : Path)
    (dirs : List String) : List String :=
  dirs.filter (fun dir => fs.pathExists (cargoPath cwd dir))

/-- Structure `PlannedCommand` as used from `meta_plugin_protocol`: a
directory and a fully-assembled command string. -/
structure PlannedCommand where
  dir : String
  cmd : String
deriving DecidableEq, Repr

/-- Inductive `CommandResult` as used from `meta_plugin_protocol`: the four
outcome constructors `execute_command` produces or its callers match on. -/
inductive CommandResult where
  | Plan (commands : List PlannedCommand) (parallel : Option Bool)
  | Message (msg : String)
  | Error (msg : String)
  | ShowHelp (help : Option String)
deriving DecidableEq, Repr

/-- The argument-appending loop of `execute_command`:
push a space then push the argument text, for each argument in turn. -/
def appendArgs (base : String) (args : List String) : String :=
  args.foldl (fun cmd arg => cmd ++ " " ++ arg) base

/-- The `match command` of `execute_command`, with the early
`return ShowHelp` of the wildcard arm rendered as `none`. -/
def buildCargoCmd (command : String) (args : List String) : Option String :=
  if command = "cargo build" then some (appendArgs "cargo build" args)
  else if command = "cargo test" then some (appendArgs "cargo test" args)
  else none

/-- Function `execute_command` from src/lib.rs: resolve directories, filter to Rust
projects, and build the plan — or the corresponding Error / Message /
ShowHelp outcome, keeping the order of checks of the source. -/
def execute_command (command : String) (args : List String) (parallel : Bool)
    (provided_projects : List String) (metaFile : MetaFile)
    (fs : FileSystem) (cwd : Path) : CommandResult :=
  match get_project_directories provided_projects metaFile with
  | .error e => .Error ("Failed to get project directories: " ++ e)
  | .ok dirs =>
    let rust_dirs := filter_rust_projects fs cwd dirs
    if rust_dirs.isEmpty then
      .Message "No Rust projects found (no Cargo.toml files)"
    else
      match buildCargoCmd command args with
      | none => .ShowHelp (some ("unrecognized command \x27" ++ command ++ "\x27"))
      | some cargo_cmd =>
        .Plan (rust_dirs.map (fun dir => ⟨dir, cargo_cmd⟩)) (some parallel)

/-- Spec-side reading of "the command name followed by the arguments
single-space-joined": `String.intercalate` over the whole word list. -/
def spaceJoined (words : List String) : String :=
  String.intercalate " " words

/-- A filesystem with a single file, `Cargo.toml` at the root. -/
def fsRootOnly : FileSystem :=
  ⟨fun p => p == ["Cargo.toml"]⟩

/-- The empty filesystem: no path exists. -/
def fsEmpty : FileSystem :=
  ⟨fun _ => false⟩

/-- A filesystem with `Cargo.toml` at the root and in subdirectory `a`. -/
def fsRootAndA : FileSystem :=
  ⟨fun p => p == ["Cargo.toml"] || p == ["a", "Cargo.toml"]⟩

/-- The accumulator-style append loop equals the single-space intercalation
of the base string with the arguments. -/
theorem appendArgs_eq_spaceJoined (base : String) (args : List String) :
    appendArgs base args = spaceJoined (base :: args) := by
  suffices h : ∀ (as : List String) (acc : String),
      appendArgs acc as = String.intercalate.go acc " " as by
    simpa [spaceJoined, String.intercalate] using h args base
  intro as
  induction as with
  | nil => intro acc; rfl
  | cons a rest ih =>
    intro acc
    simpa [appendArgs, String.intercalate.go] using ih (acc ++ " " ++ a)

/-- C5: with a non-empty provided project list, directory resolution
succeeds and returns exactly `"."` followed by the provided projects in
their original order with unmodified values, for every state of the
tree-configuration file (which is therefore never consulted). -/
theorem provided_projects_verbatim (provided : List String)
    (metaFile : MetaFile) (h : provided ≠ []) :
    get_project_directories provided metaFile = Except.ok ("." :: provided) := by
  unfold get_project_directories
  simp [h]

/-- Witness for C5: two provided projects, over an unparsable
tree-configuration file, still resolve verbatim. -/
theorem provided_projects_verbatim_witness :
    (["libA", "libB"] : List String) ≠ [] ∧
    get_project_directories ["libA", "libB"] (MetaFile.invalid "boom") =
      Except.ok [".", "libA", "libB"] :=
  ⟨by decide,
    provided_projects_verbatim ["libA", "libB"] (MetaFile.invalid "boom")
      (by decide)⟩

/-- C6: with an empty provided project list and no tree-configuration file
at the workspace root, directory resolution returns exactly `["."]`. -/
theorem no_config_no_projects_root_only :
    get_project_directories [] MetaFile.absent = Except.ok ["."] := rfl

/-- C2: with no provided projects and a tree-configuration file that parses
successfully, the resolved list is `"."` followed by the project names
collected from the configuration, which are sorted lexicographically and
are exactly the keys of the projects object. -/
theorem config_projects_sorted_after_root (j : JsonValue) :
    get_project_directories [] (MetaFile.parsed j) =
      Except.ok ("." :: configProjects j) ∧
    (configProjects j).Sorted (· ≤ ·) ∧
    (∀ s, s ∈ configProjects j ↔ s ∈ configKeys j) := by
  refine ⟨rfl, ?_, fun s => ?_⟩
  · exact List.sorted_insertionSort _ _
  · simp [configProjects, btreeKeys, List.mem_insertionSort, List.mem_dedup]

/-- C3: when no project list is provided and the tree-configuration file
exists but cannot be parsed, `execute_command` returns an Error outcome
carrying a descriptive message built from the parse error; the failure is
not treated as an empty or absent configuration. -/
theorem parse_failure_is_error (command : String) (args : List String)
    (parallel : Bool) (e : String) (fs : FileSystem) (cwd : Path) :
    execute_command command args parallel [] (MetaFile.invalid e) fs cwd =
      CommandResult.Error ("Failed to get project directories: " ++ e) := rfl

/-- C7: the manifest filter keeps exactly the directories whose resolved
`Cargo.toml` path exists, preserves the input order (the output is a
sublist of the input), and is idempotent over an unchanged filesystem
state.  It is a total function, so it never fails, and it is deterministic
in `fs`, `cwd` and `dirs`, so repeated calls on an unchanged state agree. -/
theorem filter_rust_projects_correct (fs : FileSystem) (cwd : Path)
    (dirs : List String) :
    List.Sublist (filter_rust_projects fs cwd dirs) dirs ∧
    (∀ d, d ∈ filter_rust_projects fs cwd dirs ↔
        d ∈ dirs ∧ fs.pathExists (cargoPath cwd d) = true) ∧
    filter_rust_projects fs cwd (filter_rust_projects fs cwd dirs) =
      filter_rust_projects fs cwd dirs := by
  refine ⟨List.filter_sublist _, fun d => ?_, ?_⟩
  · simp [filter_rust_projects]
  · simp [filter_rust_projects, List.filter_filter]

/-- C4: whenever directory resolution succeeds and the filtered project set
is empty, `execute_command` returns the exact Message
"No Rust projects found (no Cargo.toml files)", for every command string
and argument list. -/
theorem empty_filtered_set_message (command : String) (args : List String)
    (parallel : Bool) (provided_projects : List String) (metaFile : MetaFile)
    (fs : FileSystem) (cwd : Path) (dirs : List String)
    (hok : get_project_directories provided_projects metaFile = Except.ok dirs)
    (hempty : filter_rust_projects fs cwd dirs = []) :
    execute_command command args parallel provided_projects metaFile fs cwd =
      CommandResult.Message "No Rust projects found (no Cargo.toml files)" := by
  simp [execute_command, hok, hempty]

/-- Witness for C4: an unrecognized command over an empty filesystem still
yields the no-projects message. -/
theorem empty_filtered_set_message_witness :
    get_project_directories [] MetaFile.absent = Except.ok ["."] ∧
    filter_rust_projects fsEmpty [] ["."] = [] ∧
    execute_command "cargo clippy" ["--all"] true [] MetaFile.absent fsEmpty [] =
      CommandResult.Message "No Rust projects found (no Cargo.toml files)" :=
  ⟨rfl, rfl,
    empty_filtered_set_message "cargo clippy" ["--all"] true [] MetaFile.absent
      fsEmpty [] ["."] rfl rfl⟩

/-- C1 counterexample: an unrecognized command does not always produce a
ShowHelp outcome.  Over an empty filesystem it produces a Message outcome,
and over an unparsable tree-configuration file it produces an Error
outcome. -/
theorem unrecognized_command_cex :
    execute_command "cargo unknown" [] false [] MetaFile.absent fsEmpty [] =
      CommandResult.Message "No Rust projects found (no Cargo.toml files)" ∧
    execute_command "cargo unknown" [] false [] (MetaFile.invalid "bad json")
        fsEmpty [] =
      CommandResult.Error "Failed to get project directories: bad json" := by
  exact ⟨rfl, by decide⟩

/-- C1 (amended): for every command string other than "cargo build" and
"cargo test", whenever directory resolution succeeds and the filtered
project set is non-empty, `execute_command` returns a ShowHelp outcome
whose message is exactly the text: unrecognized command
\x27command name\x27. -/
theorem unrecognized_command_shows_help (command : String)
    (args : List String) (parallel : Bool) (provided_projects : List String)
    (metaFile : MetaFile) (fs : FileSystem) (cwd : Path) (dirs : List String)
    (hb : command ≠ "cargo build") (ht : command ≠ "cargo test")
    (hok : get_project_directories provided_projects metaFile = Except.ok dirs)
    (hne : filter_rust_projects fs cwd dirs ≠ []) :
    execute_command command args parallel provided_projects metaFile fs cwd =
      CommandResult.ShowHelp
        (some ("unrecognized command \x27" ++ command ++ "\x27")) := by
  simp [execute_command, hok, hne, buildCargoCmd, hb, ht]

/-- Witness for C1 (amended): with a root manifest present, an unrecognized
command yields the ShowHelp outcome with the literal message. -/
theorem unrecognized_command_shows_help_witness :
    ("cargo unknown" : String) ≠ "cargo build" ∧
    get_project_directories [] MetaFile.absent = Except.ok ["."] ∧
    filter_rust_projects fsRootOnly [] ["."] ≠ [] ∧
    execute_command "cargo unknown" [] false [] MetaFile.absent fsRootOnly [] =
      CommandResult.ShowHelp (some "unrecognized command \x27cargo unknown\x27") :=
  ⟨by decide, rfl, by decide,
    unrecognized_command_shows_help "cargo unknown" [] false [] MetaFile.absent
      fsRootOnly [] ["."] (by decide) (by decide) rfl (by decide)⟩

/-- C8: for command "cargo build" or "cargo test", whenever directory
resolution succeeds and the filtered directory list is non-empty,
`execute_command` returns a Plan outcome with one planned command per
filtered directory in the filtered order, each carrying the command name
followed by the arguments single-space-joined and passed through verbatim,
tagged with the caller-supplied parallel flag. -/
theorem recognized_command_builds_plan (command : String)
    (args : List String) (parallel : Bool) (provided_projects : List String)
    (metaFile : MetaFile) (fs : FileSystem) (cwd : Path) (dirs : List String)
    (hcmd : command = "cargo build" ∨ command = "cargo test")
    (hok : get_project_directories provided_projects metaFile = Except.ok dirs)
    (hne : filter_rust_projects fs cwd dirs ≠ []) :
    execute_command command args parallel provided_projects metaFile fs cwd =
      CommandResult.Plan
        ((filter_rust_projects fs cwd dirs).map
          (fun dir => ⟨dir, spaceJoined (command :: args)⟩))
        (some parallel) := by
  have hcargo : buildCargoCmd command args =
      some (spaceJoined (command :: args)) := by
    rcases hcmd with h | h <;> subst h <;>
      simp [buildCargoCmd, appendArgs_eq_spaceJoined]
  simp [execute_command, hok, hne, hcargo]

/-- Witness for C8, the spec scenario: root manifest only, command
"cargo build", args ["--release"], parallel true, yields the single-entry
plan at "." with command string "cargo build --release" and parallel
true. -/
theorem recognized_command_builds_plan_witness :
    (("cargo build" : String) = "cargo build" ∨
      ("cargo build" : String) = "cargo test") ∧
    get_project_directories [] MetaFile.absent = Except.ok ["."] ∧
    filter_rust_projects fsRootOnly [] ["."] ≠ [] ∧
    execute_command "cargo build" ["--release"] true [] MetaFile.absent
        fsRootOnly [] =
      CommandResult.Plan [⟨".", "cargo build --release"⟩] (some true) :=
  ⟨Or.inl rfl, rfl, by decide,
    recognized_command_builds_plan "cargo build" ["--release"] true []
      MetaFile.absent fsRootOnly [] ["."] (Or.inl rfl) rfl (by decide)⟩

/-- C9: whenever `execute_command` returns a Plan outcome, its list of
planned commands is non-empty. -/
theorem plan_commands_nonempty (command : String) (args : List String)
    (parallel : Bool) (provided_projects : List String) (metaFile : MetaFile)
    (fs : FileSystem) (cwd : Path) (cmds : List PlannedCommand)
    (par : Option Bool)
    (h : execute_command command args parallel provided_projects metaFile
        fs cwd = CommandResult.Plan cmds par) :
    cmds ≠ [] := by
  simp only [execute_command] at h
  split at h
  · exact CommandResult.noConfusion h
  split at h
  · exact CommandResult.noConfusion h
  next hne =>
    split at h
    · exact CommandResult.noConfusion h
    injection h with h1 h2
    subst h1
    simpa [List.map_eq_nil_iff] using hne

/-- Witness for C9: a concrete invocation that yields a Plan, whose command
list is indeed non-empty. -/
theorem plan_commands_nonempty_witness :
    execute_command "cargo test" [] false [] MetaFile.absent fsRootOnly [] =
      CommandResult.Plan [⟨".", "cargo test"⟩] (some false) ∧
    ([⟨".", "cargo test"⟩] : List PlannedCommand) ≠ [] :=
  ⟨by decide,
    plan_commands_nonempty "cargo test" [] false [] MetaFile.absent fsRootOnly
      [] [⟨".", "cargo test"⟩] (some false) (by decide)⟩

/-- C10: whenever `execute_command` returns a Plan outcome, every planned
command in it carries the identical command string. -/
theorem plan_commands_uniform (command : String) (args : List String)
    (parallel : Bool) (provided_projects : List String) (metaFile : MetaFile)
    (fs : FileSystem) (cwd : Path) (cmds : List PlannedCommand)
    (par : Option Bool) (pc₁ pc₂ : PlannedCommand)
    (h : execute_command command args parallel provided_projects metaFile
        fs cwd = CommandResult.Plan cmds par)
    (h₁ : pc₁ ∈ cmds) (h₂ : pc₂ ∈ cmds) :
    pc₁.cmd = pc₂.cmd := by
  simp only [execute_command] at h
  split at h
  · exact CommandResult.noConfusion h
  split at h
  · exact CommandResult.noConfusion h
  split at h
  · exact CommandResult.noConfusion h
  injection h with h1 h2
  subst h1
  rcases List.mem_map.mp h₁ with ⟨d₁, _, rfl⟩
  rcases List.mem_map.mp h₂ with ⟨d₂, _, rfl⟩
  rfl

/-- Witness for C10: a two-project plan whose entries share the command
string. -/
theorem plan_commands_uniform_witness :
    execute_command "cargo test" [] false ["a"] MetaFile.absent fsRootAndA [] =
      CommandResult.Plan [⟨".", "cargo test"⟩, ⟨"a", "cargo test"⟩]
        (some false) ∧
    (PlannedCommand.mk "." "cargo test").cmd =
      (PlannedCommand.mk "a" "cargo test").cmd :=
  ⟨by decide,
    plan_commands_uniform "cargo test" [] false ["a"] MetaFile.absent
      fsRootAndA [] [⟨".", "cargo test"⟩, ⟨"a", "cargo test"⟩] (some false)
      ⟨".", "cargo test"⟩ ⟨"a", "cargo test"⟩ (by decide) (by decide)
      (by decide)⟩

end MetaRust
